import Mathlib

/-!
Verification of the Uganda agriculture news scraper (src/main.py).

Strings are modelled as lists of characters (`Str`).  The pipeline of
`UgandaAgricultureScraper` is embedded as explicit state passing over an
`SState` record; the external collaborators (the LLM oracle, `json.loads`,
`uuid.uuid4`, `datetime.now`, `base64.b64decode`) are parameters collected in
an `Env` record, since they are not implemented by the repository.
-/

abbrev Str := List Char

/-- Backtick character (96), kept as a named constant. -/
def btick : Char := Char.ofNat 96

/-- Opening brace character (123). -/
def lbrace : Char := Char.ofNat 123

/-- Closing brace character (125). -/
def rbrace : Char := Char.ofNat 125

/-- Boolean prefix test on character lists. -/
def isPreOf : Str → Str → Bool
  | [], _ => true
  | _ :: _, [] => false
  | a :: as, b :: bs => a = b && isPreOf as bs

/-- Index of the first occurrence of `pat` as a contiguous substring,
mirroring the leftmost-match rule of `re.search` for a literal. -/
def findSub (pat : Str) : Str → Option Nat
  | [] => if isPreOf pat [] then some 0 else none
  | c :: cs => if isPreOf pat (c :: cs) then some 0 else (findSub pat cs).map (· + 1)

/-- Substring membership, the embedding of Python's `in` on strings. -/
def containsSub (pat s : Str) : Bool := (findSub pat s).isSome

/-- First position (if any) at which the predicate `p` accepts the suffix
starting there; embeds `re.search` for the fallback opening-token regexes. -/
def findTokenIdx (p : Str → Bool) : Str → Option Nat
  | [] => if p [] then some 0 else none
  | c :: cs => if p (c :: cs) then some 0 else (findTokenIdx p cs).map (· + 1)

/-- Tail of the fenced-JSON opener, after the leading backtick. -/
def fenceJsonTail : Str := [btick, btick, 'j', 's', 'o', 'n', '\n']

/-- The literal opener matched by the regex (three backticks, json, newline). -/
def fenceJsonOpen : Str := btick :: fenceJsonTail

/-- Tail of the fenced-base64 opener, after the leading backtick. -/
def fenceB64Tail : Str := [btick, btick, 'b', 'a', 's', 'e', '6', '4', '\n']

/-- The literal opener of the base64 fence used by `download_image`. -/
def fenceB64Open : Str := btick :: fenceB64Tail

/-- The closing fence (three backticks). -/
def fenceClose : Str := [btick, btick, btick]

/-- Embedding of `re.search(opener + lazy group + close, s, re.DOTALL)`:
the group of the leftmost match.  Because every occurrence of the opener
itself contains the closing fence as a prefix, the leftmost opener either
has a closing fence after it or no later opener can match, so taking the
first opener and then the first close after it is exactly the regex result. -/
def findFencedBlock (opener : Str) (s : Str) : Option Str :=
  match findSub opener s with
  | none => none
  | some i =>
    match findSub fenceClose (s.drop (i + opener.length)) with
    | none => none
    | some j => some ((s.drop (i + opener.length)).take j)

/-- Whitespace class of Python's `\s` on `str` patterns. -/
def isPyWs (c : Char) : Bool :=
  c = ' ' || c = '\t' || c = '\n' || c = '\r' || c = '\x0b' || c = '\x0c' ||
  (28 ≤ c.toNat && c.toNat ≤ 31) || c.toNat = 133 || c.toNat = 160 ||
  c.toNat = 5760 || (8192 ≤ c.toNat && c.toNat ≤ 8202) ||
  c.toNat = 8232 || c.toNat = 8233 || c.toNat = 8239 || c.toNat = 8287 ||
  c.toNat = 12288

/-- Greedy skip of Python regex whitespace. -/
def skipPyWs (s : Str) : Str := s.dropWhile isPyWs

/-- The literal characters of a quoted url key. -/
def urlKey : Str := ['"', 'u', 'r', 'l', '"']

/-- The literal characters of a quoted title key. -/
def titleKey : Str := ['"', 't', 'i', 't', 'l', 'e', '"']

/-- Match of the links fallback-token regex at the start of `s`.  The
whitespace runs are followed by non-whitespace literals, so greedy maximal
munch is equivalent to the backtracking regex. -/
def matchLinkTokenAt : Str → Bool
  | [] => false
  | c :: rest =>
    if c = '[' then
      match skipPyWs rest with
      | [] => false
      | c2 :: rest2 => if c2 = lbrace then isPreOf urlKey (skipPyWs rest2) else false
    else false

/-- Match of the article fallback-token regex at the start of `s`. -/
def matchArticleTokenAt : Str → Bool
  | [] => false
  | c :: rest => if c = lbrace then isPreOf titleKey (skipPyWs rest) else false

/-- Embedding of the JSON-substring extraction in `process_site` (lines
224-235): prefer the fenced block; otherwise search for the opening token
and keep everything from it to the end of the string. -/
def extractLinksJson (s : Str) : Option Str :=
  match findFencedBlock fenceJsonOpen s with
  | some m => some m
  | none =>
    match findTokenIdx matchLinkTokenAt s with
    | some i => some (s.drop i)
    | none => none

/-- Embedding of the JSON-substring extraction in `process_article` (lines
302-313), identical except for the fallback token. -/
def extractArticleJson (s : Str) : Option Str :=
  match findFencedBlock fenceJsonOpen s with
  | some m => some m
  | none =>
    match findTokenIdx matchArticleTokenAt s with
    | some i => some (s.drop i)
    | none => none

/-- Pieces of the simple regexes in ARTICLE_PATTERNS: a literal, a
one-or-more character class, or a single character class occurrence
(used to encode counted repetitions such as a four-digit year). -/
inductive Piece where
  | lit : Str → Piece
  | plusCls : (Char → Bool) → Piece
  | cls1 : (Char → Bool) → Piece

/-- Backtracking matcher for a piece sequence against a prefix of `s`.
Fuel decreases once per call; every call consumes at least one character,
so fuel `s.length + 1` is always sufficient. -/
def matchPieces : Nat → List Piece → Str → Bool
  | _, [], _ => true
  | 0, _ :: _, _ => false
  | fuel + 1, Piece.lit l :: ps, s =>
    isPreOf l s && matchPieces fuel ps (s.drop l.length)
  | fuel + 1, Piece.cls1 p :: ps, s =>
    match s with
    | [] => false
    | c :: r => p c && matchPieces fuel ps r
  | fuel + 1, Piece.plusCls p :: ps, s =>
    match s with
    | [] => false
    | c :: r => p c && (matchPieces fuel ps r || matchPieces fuel (Piece.plusCls p :: ps) r)

/-- Existence of a match of the piece sequence at any position of `s`,
the embedding of `re.search` for one alternative of ARTICLE_PATTERN. -/
def searchPat (p : List Piece) : Str → Bool
  | [] => matchPieces 1 p []
  | c :: t => matchPieces ((c :: t).length + 1) p (c :: t) || searchPat p t

/-- Character class of a lowercase letter or hyphen. -/
def clsLowDash (c : Char) : Bool := ('a' ≤ c && c ≤ 'z') || c = '-'

/-- Character class of a lowercase letter, digit or hyphen. -/
def clsLowDigDash (c : Char) : Bool :=
  ('a' ≤ c && c ≤ 'z') || ('0' ≤ c && c ≤ '9') || c = '-'

/-- Character class of a decimal digit. -/
def clsDigit (c : Char) : Bool := '0' ≤ c && c ≤ '9'

/-- The five alternatives of ARTICLE_PATTERNS (src/main.py lines 132-138),
as piece sequences.  Counted repetitions are unrolled into cls1 pieces. -/
def ARTICLE_PATTERNS : List (List Piece) :=
  [ [Piece.lit "/category/".toList, Piece.plusCls clsLowDash, Piece.lit "/".toList,
     Piece.plusCls clsLowDash, Piece.lit "/".toList, Piece.plusCls clsLowDigDash],
    [Piece.lit "/uganda/".toList, Piece.plusCls clsLowDash, Piece.lit "/".toList,
     Piece.plusCls clsLowDash, Piece.lit "/".toList, Piece.plusCls clsLowDigDash,
     Piece.lit "-".toList, Piece.plusCls clsDigit],
    [Piece.lit "/".toList, Piece.cls1 clsDigit, Piece.cls1 clsDigit, Piece.cls1 clsDigit,
     Piece.cls1 clsDigit, Piece.lit "/".toList, Piece.cls1 clsDigit, Piece.cls1 clsDigit,
     Piece.lit "/".toList, Piece.cls1 clsDigit, Piece.cls1 clsDigit, Piece.lit "/".toList,
     Piece.plusCls clsLowDigDash],
    [Piece.lit "/category/".toList, Piece.plusCls clsLowDash, Piece.lit "/".toList,
     Piece.plusCls clsLowDigDash],
    [Piece.lit "/".toList, Piece.cls1 clsDigit, Piece.cls1 clsDigit, Piece.cls1 clsDigit,
     Piece.cls1 clsDigit, Piece.lit "/".toList, Piece.cls1 clsDigit, Piece.cls1 clsDigit,
     Piece.lit "/".toList, Piece.plusCls clsLowDigDash] ]

/-- Embedding of `ARTICLE_PATTERN.search(url)` seen as a Boolean: the
union regex matches somewhere in the string. -/
def articlePatternSearch (s : Str) : Bool :=
  ARTICLE_PATTERNS.any (fun p => searchPat p s)

/-- The AGRICULTURE_KEYWORDS list (src/main.py lines 115-125), verbatim. -/
def AGRICULTURE_KEYWORDS : List Str :=
  ["agriculture".toList, "farming".toList, "crops".toList, "livestock".toList,
   "irrigation".toList, "harvest".toList, "maize".toList, "coffee".toList,
   "dairy".toList, "cattle".toList, "goats".toList, "vegetables".toList,
   "fertilizer".toList, "agricultural".toList, "farm".toList, "farmer".toList,
   "farmers".toList, "seeds".toList, "plantation".toList, "soil".toList,
   "poultry".toList, "chickens".toList, "agribusiness".toList, "agritech".toList,
   "agronomy".toList, "agroforestry".toList, "banana".toList, "cassava".toList,
   "cotton".toList, "rice".toList, "fish".toList, "fisheries".toList,
   "food security".toList, "pesticide".toList, "drought".toList, "rain".toList,
   "weather".toList, "climate".toList, "grain".toList, "crop disease".toList,
   "agricultural extension".toList, "organic".toList, "conservation".toList,
   "cooperative".toList, "sustainable".toList, "subsistence".toList,
   "commercial farming".toList]

/-- Lowercasing of a string, modelling `str.lower` on the ASCII range. -/
def toLowerStr (s : Str) : Str := s.map Char.toLower

/-- Embedding of `is_agriculture_related` (src/main.py lines 403-411):
case-insensitive substring test of every keyword against title + body. -/
def is_agriculture_related (title content : Str) : Bool :=
  let text := toLowerStr (title ++ ' ' :: content)
  AGRICULTURE_KEYWORDS.any (fun k => containsSub (toLowerStr k) text)

/-- Lowercase hexadecimal digit of a value below 16. -/
def hexDig (n : Nat) : Char :=
  if n < 10 then Char.ofNat (48 + n) else Char.ofNat (87 + n)

/-- Value of a hexadecimal digit character. -/
def hexVal (c : Char) : Option Nat :=
  if '0' ≤ c && c ≤ '9' then some (c.toNat - 48)
  else if 'a' ≤ c && c ≤ 'f' then some (c.toNat - 87)
  else if 'A' ≤ c && c ≤ 'F' then some (c.toNat - 55)
  else none

/-- JSON escape of one character as written by `json.dump` with
`ensure_ascii=False`: quote, backslash and the named control escapes, a
u-escape for the remaining control characters, everything else verbatim. -/
def escChar (c : Char) : Str :=
  if c = '"' then ['\\', '"']
  else if c = '\\' then ['\\', '\\']
  else if c = '\n' then ['\\', 'n']
  else if c = '\r' then ['\\', 'r']
  else if c = '\t' then ['\\', 't']
  else if c = '\x08' then ['\\', 'b']
  else if c = '\x0c' then ['\\', 'f']
  else if c.toNat < 32 then ['\\', 'u', '0', '0', hexDig (c.toNat / 16), hexDig (c.toNat % 16)]
  else [c]

/-- JSON escape of a whole string. -/
def escStr (s : Str) : Str := s.foldr (fun c acc => escChar c ++ acc) []

/-- A JSON string literal: the escaped text in double quotes. -/
def jsQuote (s : Str) : Str := '"' :: (escStr s ++ ['"'])

/-- One serialized key-value entry of the flat object. -/
def dumpPair (p : Str × Str) : Str := jsQuote p.1 ++ ':' :: ' ' :: jsQuote p.2

/-- Entries joined by the `json.dump(indent=2)` item separator. -/
def dumpObjPairs : List (Str × Str) → Str
  | [] => []
  | [p] => dumpPair p
  | p :: ps => dumpPair p ++ ',' :: '\n' :: ' ' :: ' ' :: dumpObjPairs ps

/-- Serialization of a flat string-valued object exactly as
`json.dump(d, f, indent=2, ensure_ascii=False)` writes it. -/
def dumpObj (ps : List (Str × Str)) : Str :=
  match ps with
  | [] => [lbrace, rbrace]
  | _ :: _ => lbrace :: '\n' :: ' ' :: ' ' :: (dumpObjPairs ps ++ '\n' :: rbrace :: [])

/-- JSON whitespace accepted between tokens. -/
def jWs (c : Char) : Bool := c = ' ' || c = '\t' || c = '\n' || c = '\r'

/-- Skip of JSON whitespace. -/
def skipJWs (s : Str) : Str := s.dropWhile jWs

/-- Simple JSON escape codes. -/
def unescSimple (e : Char) : Option Char :=
  if e = '"' then some '"'
  else if e = '\\' then some '\\'
  else if e = '/' then some '/'
  else if e = 'n' then some '\n'
  else if e = 'r' then some '\r'
  else if e = 't' then some '\t'
  else if e = 'b' then some '\x08'
  else if e = 'f' then some '\x0c'
  else none

/-- Body of a JSON string literal after the opening quote: characters up
to the unescaped closing quote, with escapes decoded; returns the decoded
text and the remainder after the closing quote.  Fuel decreases once per
call and every call consumes at least one character. -/
def goStr : Nat → Str → Option (Str × Str)
  | 0, _ => none
  | _ + 1, [] => none
  | fuel + 1, c :: rest =>
    if c = '"' then some ([], rest)
    else if c = '\\' then
      match rest with
      | [] => none
      | e :: rest2 =>
        if e = 'u' then
          match rest2 with
          | h1 :: h2 :: h3 :: h4 :: rest3 =>
            match hexVal h1, hexVal h2, hexVal h3, hexVal h4 with
            | some a, some b, some c2, some d2 =>
              (goStr fuel rest3).map
                (fun p => (Char.ofNat (((a * 16 + b) * 16 + c2) * 16 + d2) :: p.1, p.2))
            | _, _, _, _ => none
          | _ => none
        else
          match unescSimple e with
          | some ch => (goStr fuel rest2).map (fun p => (ch :: p.1, p.2))
          | none => none
    else (goStr fuel rest).map (fun p => (c :: p.1, p.2))

/-- A JSON string literal parser: expects an opening quote. -/
def parseJString (fuel : Nat) (s : Str) : Option (Str × Str) :=
  match s with
  | [] => none
  | c :: r => if c = '"' then goStr fuel r else none

/-- Parser for the pair list of a flat string-valued JSON object, after
the opening brace.  This is the fragment of `json.load` needed for the
files this program writes; fuel bounds the number of pairs. -/
def parsePairs : Nat → Str → Option (List (Str × Str) × Str)
  | 0, _ => none
  | fuel + 1, s =>
    match skipJWs s with
    | [] => none
    | c :: r =>
      if c = rbrace then some ([], r)
      else
        match parseJString ((c :: r).length + 1) (c :: r) with
        | none => none
        | some (k, r1) =>
          match skipJWs r1 with
          | [] => none
          | c2 :: r2 =>
            if c2 = ':' then
              match parseJString ((skipJWs r2).length + 1) (skipJWs r2) with
              | none => none
              | some (v, r3) =>
                match skipJWs r3 with
                | [] => none
                | c3 :: r4 =>
                  if c3 = ',' then (parsePairs fuel r4).map (fun p => ((k, v) :: p.1, p.2))
                  else if c3 = rbrace then some ([(k, v)], r4)
                  else none
            else none

/-- Parser for a whole flat string-valued JSON object with nothing but
whitespace after it, the fragment of `json.load` exercised by the files
this program writes. -/
def parseObj (s : Str) : Option (List (Str × Str)) :=
  match skipJWs s with
  | [] => none
  | c :: r =>
    if c = lbrace then
      match parsePairs (r.length + 1) r with
      | none => none
      | some (ps, rest) => if skipJWs rest = [] then some ps else none
    else none

/-- The News record (src/main.py lines 22-44).  The generated values (id
from uuid4, the two timestamps from datetime.now) are passed in by the
caller of `News.make`, since their production is outside the repository. -/
structure News where
  id : Str
  title : Str
  description : Str
  category : Str
  source : Str
  source_url : Str
  image_url : Str
  image_path : Str
  posted_at : Str
  created_at : Str
  updated_at : Str
deriving DecidableEq

/-- Embedding of the News constructor: the explicit arguments in their
Python order, preceded by the generated id and the two now() timestamps. -/
def News.make (genId createdAt updatedAt : Str)
    (title description category source source_url image_url image_path posted_at : Str) :
    News :=
  { id := genId, title := title, description := description, category := category,
    source := source, source_url := source_url, image_url := image_url,
    image_path := image_path, posted_at := posted_at,
    created_at := createdAt, updated_at := updatedAt }

def kId : Str := "id".toList
def kTitle : Str := "title".toList
def kDescription : Str := "description".toList
def kCategory : Str := "category".toList
def kSource : Str := "source".toList
def kSourceUrl : Str := "sourceUrl".toList
def kImageUrl : Str := "imageUrl".toList
def kImagePath : Str := "imagePath".toList
def kPostedAt : Str := "postedAt".toList
def kCreatedAt : Str := "createdAt".toList
def kUpdatedAt : Str := "updatedAt".toList

/-- Embedding of `News.to_dict` (src/main.py lines 46-60), in key order. -/
def newsToDict (n : News) : List (Str × Str) :=
  [(kId, n.id), (kTitle, n.title), (kDescription, n.description),
   (kCategory, n.category), (kSource, n.source), (kSourceUrl, n.source_url),
   (kImageUrl, n.image_url), (kImagePath, n.image_path), (kPostedAt, n.posted_at),
   (kCreatedAt, n.created_at), (kUpdatedAt, n.updated_at)]

/-- The text `save_news_to_json` writes for a record. -/
def dumpNews (n : News) : Str := dumpObj (newsToDict n)

def dotJson : Str := ".json".toList
def dotJpg : Str := ".jpg".toList
def imagesSlash : Str := "images/".toList
def imagesDirSlash : Str := "uganda_agriculture_news/images/".toList

/-- One candidate link from a discovery response; `url` is `none` when the
dict has no url field (or a null one), `some []` when it is empty. -/
structure Candidate where
  url : Option Str
  title : Option Str
deriving DecidableEq

/-- Fields of a parsed article-extraction response, before the `.get`
defaults applied by `process_article`. -/
structure ArticleData where
  title : Option Str
  content : Option Str
  date : Option Str
  image_url : Option Str
deriving DecidableEq

/-- External collaborators of the pipeline: the oracle responses per URL
(`none` models an exception inside `agent.ainvoke`), the two `json.loads`
call sites (`none` models a decode failure or a wrongly-typed value),
base64 decoding, and the uuid4 / datetime.now supplies indexed by a draw
counter. -/
structure Env where
  linksResp : Str → Option Str
  articleResp : Str → Option Str
  parseLinks : Str → Option (List Candidate)
  parseArticle : Str → Option ArticleData
  downloadResp : Str → Option Str
  b64decode : Str → Option Str
  uuid : Nat → Str
  now : Nat → Str

/-- The mutable state of one run: the dedup set and counters of the
scraper object, the uuid/now draw counters, and the observable effects
(extraction invocations, download invocations, files written). -/
structure SState where
  processedUrls : List Str
  articlesFound : Nat
  agricultureArticles : Nat
  imagesDownloaded : Nat
  sitesProcessed : Nat
  uuidCtr : Nat
  nowCtr : Nat
  extractTrace : List Str
  downloadTrace : List Str
  savedImages : List Str
  savedFiles : List (Str × Str)
  savedNews : List News
deriving DecidableEq

/-- State at the start of a run. -/
def initState : SState :=
  { processedUrls := [], articlesFound := 0, agricultureArticles := 0,
    imagesDownloaded := 0, sitesProcessed := 0, uuidCtr := 0, nowCtr := 0,
    extractTrace := [], downloadTrace := [], savedImages := [],
    savedFiles := [], savedNews := [] }

/-- Embedding of `save_news_to_json` (lines 413-420): one JSON file named
by the record id, holding the serialized dict. -/
def save_news_to_json (news : News) (st : SState) : SState :=
  { st with savedFiles := st.savedFiles ++ [(news.id ++ dotJson, dumpNews news)],
            savedNews := st.savedNews ++ [news] }

/-- Embedding of `download_image` (lines 366-401): record the invocation,
then write the decoded bytes only when the response has a fenced base64
block and decoding succeeds; the Boolean mirrors the Python return value. -/
def download_image (env : Env) (imageUrl outputPath : Str) (st : SState) : SState × Bool :=
  let st1 := { st with downloadTrace := st.downloadTrace ++ [imageUrl] }
  match env.downloadResp imageUrl with
  | none => (st1, false)
  | some content =>
    match findFencedBlock fenceB64Open content with
    | none => (st1, false)
    | some b64 =>
      match env.b64decode b64 with
      | none => (st1, false)
      | some _ => ({ st1 with savedImages := st1.savedImages ++ [outputPath] }, true)

/-- Tail of `process_article` from the point where the article dict is
accepted as agriculture-related: the eager now() draw of the `.get`
default for the date, then the constructor draws (uuid id, created_at,
updated_at), then the save. -/
def finish_article (env : Env) (siteName articleUrl : Str) (d : ArticleData)
    (imageUrl imagePath : Str) (st : SState) : SState :=
  let defaultDate := env.now st.nowCtr
  let st1 := { st with nowCtr := st.nowCtr + 1 }
  let postedAt := d.date.getD defaultDate
  let newsId := env.uuid st1.uuidCtr
  let st2 := { st1 with uuidCtr := st1.uuidCtr + 1 }
  let createdAt := env.now st2.nowCtr
  let st3 := { st2 with nowCtr := st2.nowCtr + 1 }
  let updatedAt := env.now st3.nowCtr
  let st4 := { st3 with nowCtr := st3.nowCtr + 1 }
  let news := News.make newsId createdAt updatedAt (d.title.getD []) (d.content.getD [])
    "Agriculture".toList siteName articleUrl imageUrl imagePath postedAt
  save_news_to_json news st4

/-- Embedding of `process_article` (lines 272-364): oracle call, JSON
extraction and parse, keyword filter, optional image download (whose
Boolean result the code discards), record construction and save.  Every
failure path returns the state unchanged, mirroring the logged skips. -/
def process_article (env : Env) (siteName articleUrl : Str) (st : SState) : SState :=
  match env.articleResp articleUrl with
  | none => st
  | some content =>
    match extractArticleJson content with
    | none => st
    | some js =>
      match env.parseArticle js with
      | none => st
      | some d =>
        if is_agriculture_related (d.title.getD []) (d.content.getD []) then
          let stA := { st with agricultureArticles := st.agricultureArticles + 1 }
          let imageUrl := d.image_url.getD []
          if imageUrl = [] then
            finish_article env siteName articleUrl d imageUrl [] stA
          else
            let imageFilename := env.uuid stA.uuidCtr ++ dotJpg
            let stB := { stA with uuidCtr := stA.uuidCtr + 1 }
            let imagePath := imagesSlash ++ imageFilename
            let stC := (download_image env imageUrl (imagesDirSlash ++ imageFilename) stB).1
            let stD := { stC with imagesDownloaded := stC.imagesDownloaded + 1 }
            finish_article env siteName articleUrl d imageUrl imagePath stD
        else st

/-- The candidate loop of `process_site` (lines 246-263): falsy or already
seen urls are skipped before the seen-set insertion; every surviving url is
inserted; the shape filter then gates the extraction call. -/
def process_links (env : Env) (siteName : Str) : List Candidate → SState → SState
  | [], st => st
  | c :: cs, st =>
    match c.url with
    | none => process_links env siteName cs st
    | some u =>
      if u = [] then process_links env siteName cs st
      else if u ∈ st.processedUrls then process_links env siteName cs st
      else
        let st1 := { st with processedUrls := st.processedUrls ++ [u] }
        if articlePatternSearch u then
          let st2 := { st1 with extractTrace := st1.extractTrace ++ [u] }
          process_links env siteName cs (process_article env siteName u st2)
        else
          process_links env siteName cs st1

/-- Embedding of `process_site` (lines 197-270): oracle call, JSON
extraction, parse (also covering the not-a-list check), the found counter,
then the candidate loop.  Failure paths leave the state unchanged. -/
def process_site (env : Env) (siteName url : Str) (st : SState) : SState :=
  match env.linksResp url with
  | none => st
  | some content =>
    match extractLinksJson content with
    | none => st
    | some js =>
      match env.parseLinks js with
      | none => st
      | some links =>
        process_links env siteName links
          { st with articlesFound := st.articlesFound + links.length }

/-- One site descriptor of the static configuration. -/
structure Site where
  name : Str
  url : Str
  alternative_urls : List Str

/-- The UGANDA_NEWS_SITES configuration (src/main.py lines 63-112). -/
def UGANDA_NEWS_SITES : List Site :=
  [ ⟨"New Vision".toList, "https://www.newvision.co.ug/category/business/agriculture".toList,
     ["https://www.newvision.co.ug/search?q=agriculture".toList,
      "https://www.newvision.co.ug/search?q=farming".toList]⟩,
    ⟨"Daily Monitor".toList, "https://www.monitor.co.ug/uganda/business/farming".toList,
     ["https://www.monitor.co.ug/uganda/magazines/farming".toList,
      "https://www.monitor.co.ug/uganda/search?q=agriculture".toList]⟩,
    ⟨"UBC".toList, "https://ubc.go.ug/category/agriculture".toList,
     ["https://ubc.go.ug/?s=agriculture".toList,
      "https://ubc.go.ug/?s=farming".toList]⟩,
    ⟨"NTV Uganda".toList, "https://www.ntv.co.ug/category/news/agriculture".toList,
     ["https://www.ntv.co.ug/search?q=agriculture".toList,
      "https://www.ntv.co.ug/search?q=farming".toList]⟩,
    ⟨"NBS".toList, "https://nbs.ug/tag/agriculture/".toList,
     ["https://nbs.ug/tag/farming/".toList,
      "https://nbs.ug/?s=agriculture".toList]⟩,
    ⟨"Nile Post".toList, "https://nilepost.co.ug/agriculture/".toList,
     ["https://nilepost.co.ug/?s=agriculture".toList,
      "https://nilepost.co.ug/?s=farming".toList]⟩ ]

/-- Processing of one site of the loop in `scrape_all_sites`: the counter,
the main URL, then the alternative URLs. -/
def process_site_all (env : Env) (site : Site) (st : SState) : SState :=
  let st1 := { st with sitesProcessed := st.sitesProcessed + 1 }
  let st2 := process_site env site.name site.url st1
  site.alternative_urls.foldl (fun acc u => process_site env site.name u acc) st2

/-- Embedding of `scrape_all_sites` (lines 174-195). -/
def scrape_all_sites (env : Env) (st : SState) : SState :=
  UGANDA_NEWS_SITES.foldl (fun acc site => process_site_all env site acc) st

/-- An environment in which every collaborator fails or returns nothing. -/
def trivEnv : Env :=
  { linksResp := fun _ => none, articleResp := fun _ => none,
    parseLinks := fun _ => none, parseArticle := fun _ => none,
    downloadResp := fun _ => none, b64decode := fun _ => none,
    uuid := fun _ => [], now := fun _ => [] }

/-- A deterministic uuid supply for concrete runs. -/
def uuidSupply (n : Nat) : Str := 'u' :: [Char.ofNat (48 + n % 10)]

/-- A deterministic timestamp supply for concrete runs. -/
def nowSupply (n : Nat) : Str := 't' :: [Char.ofNat (48 + n % 10)]

def c1Interior : Str := "payload".toList
def c1Article : Str := fenceJsonOpen ++ c1Interior ++ fenceClose
def c1ImgUrl : Str := "https://nilepost.co.ug/img/maize.png".toList
def c1Data : ArticleData :=
  { title := some "Maize harvest".toList,
    content := some "rains boost maize yield".toList,
    date := some "2024-05-01".toList, image_url := some c1ImgUrl }

/-- Environment of the image-decode-failure scenario: the article response
carries a fenced JSON block, the parsed data has a non-empty image URL, and
the download response has no fenced base64 block. -/
def c1Env : Env :=
  { linksResp := fun _ => none,
    articleResp := fun _ => some c1Article,
    parseLinks := fun _ => none,
    parseArticle := fun s => if s = c1Interior then some c1Data else none,
    downloadResp := fun _ => some "Sorry, I could not fetch that image.".toList,
    b64decode := fun _ => none,
    uuid := uuidSupply, now := nowSupply }

def c1Site : Str := "Nile Post".toList
def c1Url : Str := "https://nilepost.co.ug/category/agriculture/maize-harvest".toList

def c6Text : Str := "hello there, no data today".toList
def c6Text2 : Str := "general failure, nothing extracted".toList

/-- Environment whose oracle responses contain no JSON token at all. -/
def c6Env : Env :=
  { trivEnv with linksResp := fun _ => some c6Text,
                 articleResp := fun _ => some c6Text2 }

def c7Interior : Str := "B".toList
def c7Text : Str := fenceJsonOpen ++ c7Interior ++ fenceClose
def c7Data : ArticleData :=
  { title := some "zz".toList, content := some "qq".toList,
    date := none, image_url := some "https://x/i.jpg".toList }

/-- Environment whose parsed article contains no agriculture keyword. -/
def c7Env : Env :=
  { trivEnv with
      articleResp := fun _ => some c7Text,
      parseArticle := fun s => if s = c7Interior then some c7Data else none }

def c9SiteUrl : Str := "https://www.newvision.co.ug/category/business/agriculture".toList
def c9ArtUrl : Str :=
  "https://www.newvision.co.ug/category/business/agriculture/maize-boom".toList
def c9LinksInterior : Str := "L".toList
def c9LinksText : Str := fenceJsonOpen ++ c9LinksInterior ++ fenceClose
def c9ArtInterior : Str := "A".toList
def c9ArtText : Str := fenceJsonOpen ++ c9ArtInterior ++ fenceClose
def c9Data : ArticleData :=
  { title := some "Maize boom".toList,
    content := some "farmers celebrate a maize harvest".toList,
    date := some "2024-06-01".toList, image_url := none }

/-- Environment driving one candidate through the whole pipeline so that a
run persists exactly one record. -/
def c9Env : Env :=
  { linksResp := fun u => if u = c9SiteUrl then some c9LinksText else none,
    articleResp := fun u => if u = c9ArtUrl then some c9ArtText else none,
    parseLinks := fun s =>
      if s = c9LinksInterior then some [⟨some c9ArtUrl, some "Maize boom".toList⟩] else none,
    parseArticle := fun s => if s = c9ArtInterior then some c9Data else none,
    downloadResp := fun _ => none, b64decode := fun _ => none,
    uuid := uuidSupply, now := nowSupply }

/-- Placeholder file entry for head extraction in closed statements. -/
def dummyFile : Str × Str := ([], [])

def wGid : Str := "123e4567-e89b-42d3-a456-426614174000".toList
def wCreated : Str := "2026-10-12T08:30:00.123456".toList
def wUpdated : Str := "2026-10-12T08:30:00.123499".toList

/-- Run invariant for deduplication: the extraction trace has no repeats
and every extracted URL is in the seen-set. -/
def Inv3 (st : SState) : Prop :=
  st.extractTrace.Nodup ∧ ∀ u ∈ st.extractTrace, u ∈ st.processedUrls

/-- A persisted file is named by the identifier stored in it: parsing its
content yields an object whose first field is the id, and the filename is
that id followed by the json extension. -/
def fileOk (fc : Str × Str) : Prop :=
  ∃ v rest, parseObj fc.2 = some ((kId, v) :: rest) ∧ fc.1 = v ++ dotJson

/-- Shape well-formedness of a version-4 uuid string (8-4-4-4-12 lowercase
hex groups), the format produced by `str(uuid.uuid4())`. -/
def isUuidStr (s : Str) : Bool :=
  s.length = 36 && (List.range 36).all (fun i =>
    let c := s.getD i ' '
    if i = 8 || i = 13 || i = 18 || i = 23 then c = '-'
    else ('0' ≤ c && c ≤ '9') || ('a' ≤ c && c ≤ 'f'))

/-- Shape well-formedness of an ISO-8601 timestamp prefix as produced by
`datetime.now().isoformat()`. -/
def isIsoLike (s : Str) : Bool :=
  19 ≤ s.length &&
  clsDigit (s.getD 0 ' ') && clsDigit (s.getD 1 ' ') && clsDigit (s.getD 2 ' ') &&
  clsDigit (s.getD 3 ' ') && s.getD 4 ' ' = '-' &&
  clsDigit (s.getD 5 ' ') && clsDigit (s.getD 6 ' ') && s.getD 7 ' ' = '-' &&
  clsDigit (s.getD 8 ' ') && clsDigit (s.getD 9 ' ') && s.getD 10 ' ' = 'T' &&
  clsDigit (s.getD 11 ' ') && clsDigit (s.getD 12 ' ') && s.getD 13 ' ' = ':' &&
  clsDigit (s.getD 14 ' ') && clsDigit (s.getD 15 ' ') && s.getD 16 ' ' = ':' &&
  clsDigit (s.getD 17 ' ') && clsDigit (s.getD 18 ' ')

/-! ### Lemmas -/

theorem isPreOf_append_self : ∀ l r : Str, isPreOf l (l ++ r) = true := by
  intro l r
  induction l with
  | nil => rfl
  | cons a as ih => simp [isPreOf, ih]

theorem findSub_of_isPre {pat s : Str} (h : isPreOf pat s = true) :
    findSub pat s = some 0 := by
  cases s with
  | nil => simp [findSub, h]
  | cons c cs => simp [findSub, h]

theorem findSub_append {c0 : Char} {pt : Str} (pre s : Str) (h : c0 ∉ pre) :
    findSub (c0 :: pt) (pre ++ s) = (findSub (c0 :: pt) s).map (· + pre.length) := by
  induction pre with
  | nil =>
    simp only [List.nil_append, List.length_nil]
    cases findSub (c0 :: pt) s <;> simp
  | cons a as ih =>
    have h1 : ¬(c0 = a) := fun he => h (by simp [he])
    have h2 : c0 ∉ as := fun hm => h (by simp [hm])
    have hpre : isPreOf (c0 :: pt) (a :: (as ++ s)) = false := by
      simp [isPreOf, h1]
    rw [List.cons_append]
    rw [show findSub (c0 :: pt) (a :: (as ++ s))
        = if isPreOf (c0 :: pt) (a :: (as ++ s)) then some 0
          else (findSub (c0 :: pt) (as ++ s)).map (· + 1) from rfl]
    rw [hpre]
    simp only [Bool.false_eq_true, if_false, ih h2]
    cases findSub (c0 :: pt) s <;> simp [Nat.add_assoc]

theorem findFencedBlock_at (opTail pre mid suf : Str)
    (hpre : btick ∉ pre) (hmid : btick ∉ mid) :
    findFencedBlock (btick :: opTail)
      (pre ++ (btick :: opTail) ++ mid ++ fenceClose ++ suf) = some mid := by
  have hshape : pre ++ (btick :: opTail) ++ mid ++ fenceClose ++ suf
      = pre ++ ((btick :: opTail) ++ (mid ++ (fenceClose ++ suf))) := by
    simp [List.append_assoc]
  have h1 : findSub (btick :: opTail)
      (pre ++ ((btick :: opTail) ++ (mid ++ (fenceClose ++ suf)))) = some pre.length := by
    rw [findSub_append pre _ hpre, findSub_of_isPre (isPreOf_append_self _ _)]
    simp
  have hdrop : (pre ++ ((btick :: opTail) ++ (mid ++ (fenceClose ++ suf)))).drop
      (pre.length + (btick :: opTail).length) = mid ++ (fenceClose ++ suf) := by
    rw [show pre ++ ((btick :: opTail) ++ (mid ++ (fenceClose ++ suf)))
        = (pre ++ (btick :: opTail)) ++ (mid ++ (fenceClose ++ suf)) by simp [List.append_assoc],
      ← List.length_append, List.drop_left]
  have h2 : findSub fenceClose (mid ++ (fenceClose ++ suf)) = some mid.length := by
    rw [show fenceClose = btick :: [btick, btick] from rfl,
      findSub_append mid _ hmid, findSub_of_isPre (isPreOf_append_self _ _)]
    simp
  rw [hshape]
  unfold findFencedBlock
  simp only [h1, hdrop, h2, List.take_left]

theorem findTokenIdx_at (p : Str → Bool) (pre rest : Str)
    (hpre : ∀ i, i < pre.length → p ((pre ++ rest).drop i) = false)
    (hr : p rest = true) :
    findTokenIdx p (pre ++ rest) = some pre.length := by
  induction pre with
  | nil =>
    cases rest with
    | nil => simp [findTokenIdx, hr]
    | cons c cs => simp [findTokenIdx, hr]
  | cons a as ih =>
    have h0 : p (a :: (as ++ rest)) = false := by
      have := hpre 0 (by simp)
      simpa using this
    have ihh : findTokenIdx p (as ++ rest) = some as.length := by
      apply ih
      intro i hi
      have := hpre (i + 1) (by simpa using Nat.succ_lt_succ hi)
      simpa using this
    simp [findTokenIdx, h0, ihh]

/-- Claim C2: when the oracle response contains a fenced JSON block, the
extraction helpers hand exactly the block interior to the JSON parser,
ignoring everything before and after the fence; only when no fenced block
is present do they fall back to the first occurrence of the opening token
and keep the text from that token to the end of the string. -/
theorem extraction_prefers_fenced_block_then_token
    (pre mid suf pre2 rest2 pre3 rest3 : Str)
    (hpre : btick ∉ pre) (hmid : btick ∉ mid)
    (hnf2 : findFencedBlock fenceJsonOpen (pre2 ++ rest2) = none)
    (htok2 : matchLinkTokenAt rest2 = true)
    (hpre2 : ∀ i, i < pre2.length → matchLinkTokenAt ((pre2 ++ rest2).drop i) = false)
    (hnf3 : findFencedBlock fenceJsonOpen (pre3 ++ rest3) = none)
    (htok3 : matchArticleTokenAt rest3 = true)
    (hpre3 : ∀ i, i < pre3.length → matchArticleTokenAt ((pre3 ++ rest3).drop i) = false) :
    extractLinksJson (pre ++ fenceJsonOpen ++ mid ++ fenceClose ++ suf) = some mid ∧
    extractArticleJson (pre ++ fenceJsonOpen ++ mid ++ fenceClose ++ suf) = some mid ∧
    extractLinksJson (pre2 ++ rest2) = some rest2 ∧
    extractArticleJson (pre3 ++ rest3) = some rest3 := by
  have hfb := findFencedBlock_at fenceJsonTail pre mid suf hpre hmid
  refine ⟨?_, ?_, ?_, ?_⟩
  · unfold extractLinksJson
    rw [show fenceJsonOpen = btick :: fenceJsonTail from rfl]
    simp only [hfb]
  · unfold extractArticleJson
    rw [show fenceJsonOpen = btick :: fenceJsonTail from rfl]
    simp only [hfb]
  · unfold extractLinksJson
    have ht := findTokenIdx_at _ _ _ hpre2 htok2
    simp only [hnf2, ht, List.drop_left]
  · unfold extractArticleJson
    have ht := findTokenIdx_at _ _ _ hpre3 htok3
    simp only [hnf3, ht, List.drop_left]

/-- Witness of C2 at concrete inputs. -/
theorem extraction_prefers_fenced_block_then_token_witness :
    extractLinksJson ("Here: ".toList ++ fenceJsonOpen ++ "[1]".toList ++ fenceClose ++ " bye".toList)
      = some "[1]".toList ∧
    extractArticleJson ("Here: ".toList ++ fenceJsonOpen ++ "[1]".toList ++ fenceClose ++ " bye".toList)
      = some "[1]".toList ∧
    extractLinksJson ("xx".toList ++ ('[' :: lbrace :: urlKey ++ "]".toList))
      = some ('[' :: lbrace :: urlKey ++ "]".toList) ∧
    extractArticleJson ("yy".toList ++ (lbrace :: titleKey ++ "]".toList))
      = some (lbrace :: titleKey ++ "]".toList) := by
  exact extraction_prefers_fenced_block_then_token
    "Here: ".toList "[1]".toList " bye".toList
    "xx".toList ('[' :: lbrace :: urlKey ++ "]".toList)
    "yy".toList (lbrace :: titleKey ++ "]".toList)
    (by decide) (by decide) (by decide) (by decide) (by decide)
    (by decide) (by decide) (by decide)

@[simp] theorem download_image_fst_processedUrls (env : Env) (iu op : Str) (st : SState) :
    ((download_image env iu op st).1).processedUrls = st.processedUrls := by
  unfold download_image
  repeat first | rfl | split

@[simp] theorem download_image_fst_extractTrace (env : Env) (iu op : Str) (st : SState) :
    ((download_image env iu op st).1).extractTrace = st.extractTrace := by
  unfold download_image
  repeat first | rfl | split

@[simp] theorem download_image_fst_savedFiles (env : Env) (iu op : Str) (st : SState) :
    ((download_image env iu op st).1).savedFiles = st.savedFiles := by
  unfold download_image
  repeat first | rfl | split

@[simp] theorem download_image_fst_articlesFound (env : Env) (iu op : Str) (st : SState) :
    ((download_image env iu op st).1).articlesFound = st.articlesFound := by
  unfold download_image
  repeat first | rfl | split

@[simp] theorem download_image_fst_sitesProcessed (env : Env) (iu op : Str) (st : SState) :
    ((download_image env iu op st).1).sitesProcessed = st.sitesProcessed := by
  unfold download_image
  repeat first | rfl | split

theorem process_article_linkFields (env : Env) (n u : Str) (st : SState) :
    (process_article env n u st).processedUrls = st.processedUrls ∧
    (process_article env n u st).extractTrace = st.extractTrace ∧
    (process_article env n u st).articlesFound = st.articlesFound ∧
    (process_article env n u st).sitesProcessed = st.sitesProcessed := by
  unfold process_article
  repeat' split
  all_goals refine ⟨?_, ?_, ?_, ?_⟩
  all_goals dsimp only
  all_goals try split
  all_goals simp [finish_article, save_news_to_json]

theorem process_links_cons_none (env : Env) (n : Str) (c : Candidate)
    (cs : List Candidate) (st : SState) (h : c.url = none) :
    process_links env n (c :: cs) st = process_links env n cs st := by
  simp [process_links, h]

theorem process_links_cons_empty (env : Env) (n : Str) (c : Candidate)
    (cs : List Candidate) (st : SState) (h : c.url = some []) :
    process_links env n (c :: cs) st = process_links env n cs st := by
  simp [process_links, h]

theorem process_links_cons_dup (env : Env) (n : Str) (c : Candidate)
    (cs : List Candidate) (st : SState) {u : Str} (h : c.url = some u)
    (hne : u ≠ []) (hmem : u ∈ st.processedUrls) :
    process_links env n (c :: cs) st = process_links env n cs st := by
  simp [process_links, h, hne, hmem]

theorem process_links_cons_nopat (env : Env) (n : Str) (c : Candidate)
    (cs : List Candidate) (st : SState) {u : Str} (h : c.url = some u)
    (hne : u ≠ []) (hmem : u ∉ st.processedUrls)
    (hpat : articlePatternSearch u = false) :
    process_links env n (c :: cs) st
      = process_links env n cs { st with processedUrls := st.processedUrls ++ [u] } := by
  simp [process_links, h, hne, hmem, hpat]

theorem process_links_cons_extract (env : Env) (n : Str) (c : Candidate)
    (cs : List Candidate) (st : SState) {u : Str} (h : c.url = some u)
    (hne : u ≠ []) (hmem : u ∉ st.processedUrls)
    (hpat : articlePatternSearch u = true) :
    process_links env n (c :: cs) st
      = process_links env n cs (process_article env n u
          { st with processedUrls := st.processedUrls ++ [u],
                    extractTrace := st.extractTrace ++ [u] }) := by
  simp [process_links, h, hne, hmem, hpat]

theorem process_links_cons_step (env : Env) (n : Str) (c : Candidate) (st : SState) :
    ∃ st', (∀ cs, process_links env n (c :: cs) st = process_links env n cs st') ∧
      (∀ u, u ∈ st.processedUrls → u ∈ st'.processedUrls) := by
  rcases hc : c.url with _ | v
  · exact ⟨st, fun cs => process_links_cons_none env n c cs st hc, fun u h => h⟩
  · by_cases hv : v = []
    · subst hv
      exact ⟨st, fun cs => process_links_cons_empty env n c cs st hc, fun u h => h⟩
    · by_cases hmem : v ∈ st.processedUrls
      · exact ⟨st, fun cs => process_links_cons_dup env n c cs st hc hv hmem, fun u h => h⟩
      · by_cases hpat : articlePatternSearch v = true
        · refine ⟨process_article env n v
            { st with processedUrls := st.processedUrls ++ [v],
                      extractTrace := st.extractTrace ++ [v] },
            fun cs => process_links_cons_extract env n c cs st hc hv hmem hpat, ?_⟩
          intro u h
          rw [(process_article_linkFields env n v _).1]
          exact List.mem_append_left _ h
        · refine ⟨{ st with processedUrls := st.processedUrls ++ [v] },
            fun cs => process_links_cons_nopat env n c cs st hc hv hmem (by simpa using hpat), ?_⟩
          intro u h
          exact List.mem_append_left _ h

theorem process_links_purls_mono (env : Env) (n : Str) :
    ∀ (cs : List Candidate) (st : SState) (u : Str),
      u ∈ st.processedUrls → u ∈ (process_links env n cs st).processedUrls := by
  intro cs
  induction cs with
  | nil => intro st u h; simpa [process_links] using h
  | cons c cs ih =>
    intro st u h
    obtain ⟨st', heq, hmono⟩ := process_links_cons_step env n c st
    rw [heq]
    exact ih st' u (hmono u h)

theorem process_links_inv3 (env : Env) (n : Str) :
    ∀ (cs : List Candidate) (st : SState), Inv3 st → Inv3 (process_links env n cs st) := by
  intro cs
  induction cs with
  | nil => intro st h; simpa [process_links] using h
  | cons c cs ih =>
    intro st h
    rcases hc : c.url with _ | v
    · rw [process_links_cons_none env n c cs st hc]; exact ih st h
    · by_cases hv : v = []
      · subst hv
        rw [process_links_cons_empty env n c cs st hc]; exact ih st h
      · by_cases hmem : v ∈ st.processedUrls
        · rw [process_links_cons_dup env n c cs st hc hv hmem]; exact ih st h
        · by_cases hpat : articlePatternSearch v = true
          · rw [process_links_cons_extract env n c cs st hc hv hmem hpat]
            apply ih
            obtain ⟨hnd, hsub⟩ := h
            have hlf := process_article_linkFields env n v
              { st with processedUrls := st.processedUrls ++ [v],
                        extractTrace := st.extractTrace ++ [v] }
            have hvnot : v ∉ st.extractTrace := fun hvm => hmem (hsub v hvm)
            constructor
            · rw [hlf.2.1]
              simp only [List.nodup_append, List.nodup_singleton]
              exact ⟨hnd, trivial, by simpa [List.disjoint_singleton] using hvnot⟩
            · intro u hu
              rw [hlf.2.1] at hu
              rw [hlf.1]
              rcases List.mem_append.mp hu with h1 | h1
              · exact List.mem_append_left _ (hsub u h1)
              · exact List.mem_append_right _ h1
          · rw [process_links_cons_nopat env n c cs st hc hv hmem (by simpa using hpat)]
            apply ih
            exact ⟨h.1, fun u hu => List.mem_append_left _ (h.2 u hu)⟩

theorem process_site_inv3 (env : Env) (n url : Str) (st : SState)
    (h : Inv3 st) : Inv3 (process_site env n url st) := by
  unfold process_site
  repeat' split
  any_goals exact h
  exact process_links_inv3 env n _ _ ⟨h.1, h.2⟩

theorem foldl_pres {α : Type _} (P : SState → Prop) (f : SState → α → SState)
    (hf : ∀ st a, P st → P (f st a)) :
    ∀ (l : List α) (st : SState), P st → P (List.foldl f st l) := by
  intro l
  induction l with
  | nil => intro st h; simpa using h
  | cons a as ih => intro st h; simpa using ih _ (hf st a h)

theorem process_site_all_inv3 (env : Env) (site : Site) (st : SState)
    (h : Inv3 st) : Inv3 (process_site_all env site st) := by
  unfold process_site_all
  exact foldl_pres Inv3 _ (fun st a h => process_site_inv3 env site.name a st h) _ _
    (process_site_inv3 env site.name site.url _ ⟨h.1, h.2⟩)

theorem scrape_inv3 (env : Env) (st : SState) (h : Inv3 st) :
    Inv3 (scrape_all_sites env st) := by
  unfold scrape_all_sites
  exact foldl_pres Inv3 _ (fun st a h => process_site_all_inv3 env a st h) _ _ h

/-- Claim C3: within a single run no URL is ever passed to the
article-extraction step twice: whatever the discovery responses are, the
trace of extraction invocations of a whole run has no duplicates, because
every invoked URL is first added to the process-local seen-set and the
set is consulted before each invocation. -/
theorem extraction_urls_nodup_in_run (env : Env) :
    ((scrape_all_sites env initState).extractTrace).Nodup :=
  (scrape_inv3 env initState
    ⟨List.nodup_nil, fun u hu => absurd hu (List.not_mem_nil u)⟩).1

theorem process_links_notin_trace (env : Env) (n u : Str)
    (hpat : articlePatternSearch u = false) :
    ∀ (cs : List Candidate) (st : SState),
      u ∉ st.extractTrace → u ∉ (process_links env n cs st).extractTrace := by
  intro cs
  induction cs with
  | nil => intro st h; simpa [process_links] using h
  | cons c cs ih =>
    intro st h
    rcases hc : c.url with _ | v
    · rw [process_links_cons_none env n c cs st hc]; exact ih st h
    · by_cases hv : v = []
      · subst hv
        rw [process_links_cons_empty env n c cs st hc]; exact ih st h
      · by_cases hmem : v ∈ st.processedUrls
        · rw [process_links_cons_dup env n c cs st hc hv hmem]; exact ih st h
        · by_cases hpv : articlePatternSearch v = true
          · rw [process_links_cons_extract env n c cs st hc hv hmem hpv]
            apply ih
            rw [(process_article_linkFields env n v _).2.1]
            intro hu
            rcases List.mem_append.mp hu with h1 | h1
            · exact h h1
            · have huv : u = v := by simpa using h1
              rw [huv, hpv] at hpat
              exact absurd hpat (by decide)
          · rw [process_links_cons_nopat env n c cs st hc hv hmem (by simpa using hpv)]
            exact ih _ h

theorem process_site_notin_trace (env : Env) (n url u : Str)
    (hpat : articlePatternSearch u = false) (st : SState)
    (h : u ∉ st.extractTrace) : u ∉ (process_site env n url st).extractTrace := by
  unfold process_site
  repeat' split
  any_goals exact h
  exact process_links_notin_trace env n u hpat _ _ h

theorem scrape_notin_trace (env : Env) (u : Str)
    (hpat : articlePatternSearch u = false) (st : SState)
    (h : u ∉ st.extractTrace) : u ∉ (scrape_all_sites env st).extractTrace := by
  unfold scrape_all_sites
  apply foldl_pres (fun st => u ∉ st.extractTrace)
    (fun acc site => process_site_all env site acc) ?_ _ _ h
  intro st' site h'
  unfold process_site_all
  apply foldl_pres (fun st => u ∉ st.extractTrace) _ ?_
  · exact process_site_notin_trace env site.name site.url u hpat _ h'
  · intro st'' a h''
    exact process_site_notin_trace env site.name a u hpat _ h''

/-- Claim C4: a candidate URL that matches none of the configured
article-shape patterns is never passed to the article-extraction step: in
any run, a URL rejected by ARTICLE_PATTERN never occurs in the trace of
extraction invocations. -/
theorem unmatched_url_never_extracted (env : Env) (u : Str)
    (h : articlePatternSearch u = false) :
    u ∉ (scrape_all_sites env initState).extractTrace :=
  scrape_notin_trace env u h initState (List.not_mem_nil u)

/-- Witness of C4 at concrete inputs. -/
theorem unmatched_url_never_extracted_witness :
    articlePatternSearch ['a'] = false ∧
    ['a'] ∉ (scrape_all_sites trivEnv initState).extractTrace :=
  ⟨by decide, unmatched_url_never_extracted trivEnv ['a'] (by decide)⟩

theorem process_links_no_retry (env : Env) (n u : Str) :
    ∀ (cs : List Candidate) (st : SState), u ∈ st.processedUrls →
      u ∈ (process_links env n cs st).processedUrls ∧
      (u ∈ (process_links env n cs st).extractTrace ↔ u ∈ st.extractTrace) := by
  intro cs
  induction cs with
  | nil => intro st h; exact ⟨by simpa [process_links] using h, by simp [process_links]⟩
  | cons c cs ih =>
    intro st h
    rcases hc : c.url with _ | v
    · rw [process_links_cons_none env n c cs st hc]; exact ih st h
    · by_cases hv : v = []
      · subst hv
        rw [process_links_cons_empty env n c cs st hc]; exact ih st h
      · by_cases hmem : v ∈ st.processedUrls
        · rw [process_links_cons_dup env n c cs st hc hv hmem]; exact ih st h
        · by_cases hpv : articlePatternSearch v = true
          · rw [process_links_cons_extract env n c cs st hc hv hmem hpv]
            have hvu : ¬(u = v) := fun he => hmem (he ▸ h)
            have hlf := process_article_linkFields env n v
              { st with processedUrls := st.processedUrls ++ [v],
                        extractTrace := st.extractTrace ++ [v] }
            have h2 : u ∈ (process_article env n v
                { st with processedUrls := st.processedUrls ++ [v],
                          extractTrace := st.extractTrace ++ [v] }).processedUrls := by
              rw [hlf.1]
              exact List.mem_append_left _ h
            obtain ⟨h3, h4⟩ := ih _ h2
            refine ⟨h3, h4.trans ?_⟩
            rw [hlf.2.1]
            simp [List.mem_append, hvu]
          · rw [process_links_cons_nopat env n c cs st hc hv hmem (by simpa using hpv)]
            exact ih _ (List.mem_append_left _ h)

theorem process_site_no_retry (env : Env) (n url u : Str) (st : SState)
    (h : u ∈ st.processedUrls) :
    u ∈ (process_site env n url st).processedUrls ∧
    (u ∈ (process_site env n url st).extractTrace ↔ u ∈ st.extractTrace) := by
  constructor
  · unfold process_site
    repeat' split
    any_goals exact h
    rename_i x links heq
    exact (process_links_no_retry env n u links
      { st with articlesFound := st.articlesFound + links.length } h).1
  · unfold process_site
    repeat' split
    any_goals exact Iff.rfl
    rename_i x links heq
    exact (process_links_no_retry env n u links
      { st with articlesFound := st.articlesFound + links.length } h).2

theorem foldl_keep {α : Type _} (u : Str) (f : SState → α → SState)
    (hf : ∀ st a, u ∈ st.processedUrls →
      u ∈ (f st a).processedUrls ∧ (u ∈ (f st a).extractTrace ↔ u ∈ st.extractTrace)) :
    ∀ (l : List α) (st : SState), u ∈ st.processedUrls →
      u ∈ (List.foldl f st l).processedUrls ∧
      (u ∈ (List.foldl f st l).extractTrace ↔ u ∈ st.extractTrace) := by
  intro l
  induction l with
  | nil => intro st h; exact ⟨by simpa using h, by simp⟩
  | cons a as ih =>
    intro st h
    obtain ⟨h1, h2⟩ := hf st a h
    obtain ⟨h3, h4⟩ := ih (f st a) h1
    exact ⟨by simpa using h3, by simpa using h4.trans h2⟩

theorem process_site_all_no_retry (env : Env) (u : Str) (site : Site) (st : SState)
    (h : u ∈ st.processedUrls) :
    u ∈ (process_site_all env site st).processedUrls ∧
    (u ∈ (process_site_all env site st).extractTrace ↔ u ∈ st.extractTrace) := by
  unfold process_site_all
  obtain ⟨h1, h2⟩ := process_site_no_retry env site.name site.url u
    { st with sitesProcessed := st.sitesProcessed + 1 } h
  obtain ⟨h3, h4⟩ := foldl_keep u _
    (fun st a hh => process_site_no_retry env site.name a u st hh)
    site.alternative_urls _ h1
  exact ⟨h3, h4.trans h2⟩

theorem scrape_no_retry (env : Env) (u : Str) (st : SState)
    (h : u ∈ st.processedUrls) :
    u ∈ (scrape_all_sites env st).processedUrls ∧
    (u ∈ (scrape_all_sites env st).extractTrace ↔ u ∈ st.extractTrace) := by
  unfold scrape_all_sites
  exact foldl_keep u _ (fun st a hh => process_site_all_no_retry env u a st hh) _ _ h

theorem process_links_adds (env : Env) (n : Str) :
    ∀ (cs : List Candidate) (st : SState) (c : Candidate) (u : Str),
      c ∈ cs → c.url = some u → u ≠ [] →
      u ∈ (process_links env n cs st).processedUrls := by
  intro cs
  induction cs with
  | nil => intro st c u hc _ _; exact absurd hc (List.not_mem_nil c)
  | cons c0 cs ih =>
    intro st c u hc hu hne
    rcases List.mem_cons.mp hc with he | hm
    · subst he
      by_cases hmem : u ∈ st.processedUrls
      · rw [process_links_cons_dup env n c cs st hu hne hmem]
        exact process_links_purls_mono env n cs st u hmem
      · by_cases hpat : articlePatternSearch u = true
        · rw [process_links_cons_extract env n c cs st hu hne hmem hpat]
          apply process_links_purls_mono
          rw [(process_article_linkFields env n u _).1]
          exact List.mem_append_right _ (by simp)
        · rw [process_links_cons_nopat env n c cs st hu hne hmem (by simpa using hpat)]
          apply process_links_purls_mono
          exact List.mem_append_right _ (by simp)
    · obtain ⟨st', heq, _⟩ := process_links_cons_step env n c0 st
      rw [heq]
      exact ih st' c u hm hu hne

/-- Claim C5: every candidate link of a discovery response that carries a
non-empty URL ends up in the seen-URL set whether or not it survives the
shape filter; and once a URL is in the seen-set, any amount of further
scraping (any sites, any alternate URLs, any oracle behaviour) never adds
it to the extraction trace, so a link rejected by the shape filter can
never be retried within the run. -/
theorem visited_link_always_added_never_retried
    (env env2 : Env) (n : Str) (cands : List Candidate) (st : SState)
    (c : Candidate) (u : Str)
    (hc : c ∈ cands) (hu : c.url = some u) (hne : u ≠ []) :
    u ∈ (process_links env n cands st).processedUrls ∧
    (u ∈ (scrape_all_sites env2 (process_links env n cands st)).extractTrace ↔
      u ∈ (process_links env n cands st).extractTrace) := by
  have ha := process_links_adds env n cands st c u hc hu hne
  exact ⟨ha, (scrape_no_retry env2 u _ ha).2⟩

/-- Witness of C5 at concrete inputs. -/
theorem visited_link_always_added_never_retried_witness :
    ('/' :: ['x']) ∈ (process_links trivEnv [] [⟨some ('/' :: ['x']), none⟩] initState).processedUrls ∧
    (('/' :: ['x']) ∈ (scrape_all_sites trivEnv
        (process_links trivEnv [] [⟨some ('/' :: ['x']), none⟩] initState)).extractTrace ↔
      ('/' :: ['x']) ∈ (process_links trivEnv [] [⟨some ('/' :: ['x']), none⟩] initState).extractTrace) :=
  visited_link_always_added_never_retried trivEnv trivEnv [] _ initState
    ⟨some ('/' :: ['x']), none⟩ ('/' :: ['x']) (by decide) (by decide) (by decide)

/-- Claim C10: a candidate whose url field is missing or empty is skipped
atomically: deleting it from the discovery response changes nothing, so
the seen-set is not touched, extraction is not invoked and nothing is
persisted on its account. -/
theorem falsy_url_candidate_skipped_atomically
    (env : Env) (n : Str) (l1 l2 : List Candidate) (c : Candidate) (st : SState)
    (h : c.url = none ∨ c.url = some []) :
    process_links env n (l1 ++ c :: l2) st = process_links env n (l1 ++ l2) st := by
  induction l1 generalizing st with
  | nil =>
    rcases h with h | h
    · simpa using process_links_cons_none env n c l2 st h
    · simpa using process_links_cons_empty env n c l2 st h
  | cons a l1 ih =>
    obtain ⟨st', heq, _⟩ := process_links_cons_step env n a st
    simp only [List.cons_append]
    rw [heq, heq]
    exact ih st'

/-- Witness of C10 at concrete inputs. -/
theorem falsy_url_candidate_skipped_atomically_witness :
    process_links trivEnv [] ([⟨some ('/' :: ['x']), none⟩] ++ ⟨none, some ['t']⟩ :: [⟨some ['y'], none⟩]) initState
      = process_links trivEnv [] ([⟨some ('/' :: ['x']), none⟩] ++ [⟨some ['y'], none⟩]) initState :=
  falsy_url_candidate_skipped_atomically trivEnv [] [⟨some ('/' :: ['x']), none⟩]
    [⟨some ['y'], none⟩] ⟨none, some ['t']⟩ initState (Or.inl (by decide))

/-- Claim C6: an oracle response with no JSON token at all (no fenced
block with a close, no opening token anywhere) makes the extraction step
report a not-found outcome (the helper returns none) and the unit of work
is skipped with the state untouched; the embedding is total, so no
exception escapes. -/
theorem no_json_token_reports_not_found_and_skips
    (env : Env) (n url aurl : Str) (st st2 : SState) (content content2 : Str)
    (hl : env.linksResp url = some content)
    (hf : findFencedBlock fenceJsonOpen content = none)
    (ht : findTokenIdx matchLinkTokenAt content = none)
    (ha : env.articleResp aurl = some content2)
    (hf2 : findFencedBlock fenceJsonOpen content2 = none)
    (ht2 : findTokenIdx matchArticleTokenAt content2 = none) :
    extractLinksJson content = none ∧ process_site env n url st = st ∧
    extractArticleJson content2 = none ∧ process_article env n aurl st2 = st2 := by
  have he : extractLinksJson content = none := by
    unfold extractLinksJson
    simp [hf, ht]
  have he2 : extractArticleJson content2 = none := by
    unfold extractArticleJson
    simp [hf2, ht2]
  refine ⟨he, ?_, he2, ?_⟩
  · unfold process_site
    simp [hl, he]
  · unfold process_article
    simp [ha, he2]

/-- Witness of C6 at concrete inputs. -/
theorem no_json_token_reports_not_found_and_skips_witness :
    extractLinksJson c6Text = none ∧ process_site c6Env [] ['u'] initState = initState ∧
    extractArticleJson c6Text2 = none ∧ process_article c6Env [] ['v'] initState = initState :=
  no_json_token_reports_not_found_and_skips c6Env [] ['u'] ['v'] initState initState
    c6Text c6Text2 (by decide) (by decide) (by decide) (by decide) (by decide) (by decide)

theorem is_agriculture_related_eq_false (t c : Str)
    (h : ∀ k ∈ AGRICULTURE_KEYWORDS,
      containsSub (toLowerStr k) (toLowerStr (t ++ ' ' :: c)) = false) :
    is_agriculture_related t c = false := by
  unfold is_agriculture_related
  rw [List.any_eq_false]
  intro k hk
  simp [h k hk]

/-- Claim C7: under the keyword-filter policy, an extraction response
whose title and body contain no agriculture keyword as a case-insensitive
substring leads to no persisted record, an unchanged agriculture counter
and no image-download attempt: the state is returned untouched. -/
theorem no_keyword_article_not_persisted
    (env : Env) (n url : Str) (st : SState) (content js : Str) (d : ArticleData)
    (ha : env.articleResp url = some content)
    (he : extractArticleJson content = some js)
    (hp : env.parseArticle js = some d)
    (hk : ∀ k ∈ AGRICULTURE_KEYWORDS,
      containsSub (toLowerStr k)
        (toLowerStr ((d.title.getD []) ++ ' ' :: (d.content.getD []))) = false) :
    process_article env n url st = st := by
  have hag : is_agriculture_related (d.title.getD []) (d.content.getD []) = false :=
    is_agriculture_related_eq_false _ _ hk
  unfold process_article
  simp [ha, he, hp, hag]

/-- Witness of C7 at concrete inputs. -/
theorem no_keyword_article_not_persisted_witness :
    process_article c7Env [] ['w'] initState = initState :=
  no_keyword_article_not_persisted c7Env [] ['w'] initState c7Text c7Interior c7Data
    (by decide) (by decide) (by decide) (by decide)

/-- Claim C1 exhibit: with an article whose extraction result has a
non-empty image URL and a download response lacking a fenced base64 block,
the code still increments the images_downloaded counter, writes no image
file, and persists the record with the pre-assigned non-empty image path
- contradicting the claimed empty path and unincremented counter. -/
theorem image_decode_failure_still_counts_and_keeps_path :
    (process_article c1Env c1Site c1Url initState).imagesDownloaded = 1 ∧
    (process_article c1Env c1Site c1Url initState).savedImages = [] ∧
    (process_article c1Env c1Site c1Url initState).downloadTrace = [c1ImgUrl] ∧
    (process_article c1Env c1Site c1Url initState).savedNews.map News.image_path
      = [imagesSlash ++ ('u' :: '0' :: dotJpg)] ∧
    imagesSlash ++ ('u' :: '0' :: dotJpg) ≠ ([] : Str) := by decide

theorem hexVal_hexDig : ∀ n : Nat, n < 16 → hexVal (hexDig n) = some n := by decide

theorem escChar_length_pos (c : Char) : 1 ≤ (escChar c).length := by
  unfold escChar
  split_ifs <;> simp

theorem escStr_length : ∀ s : Str, s.length ≤ (escStr s).length := by
  intro s
  induction s with
  | nil => simp [escStr]
  | cons c cs ih =>
    have h1 := escChar_length_pos c
    have h2 : escStr (c :: cs) = escChar c ++ escStr cs := rfl
    rw [h2, List.length_append, List.length_cons]
    omega

theorem goStr_escChar (c : Char) (t : Str) (fuel : Nat) :
    goStr (fuel + 1) (escChar c ++ t) = (goStr fuel t).map (fun p => (c :: p.1, p.2)) := by
  unfold escChar
  split_ifs with h1 h2 h3 h4 h5 h6 h7 h8
  · subst h1; simp [goStr, unescSimple]
  · subst h2; simp [goStr, unescSimple]
  · subst h3; simp [goStr, unescSimple]
  · subst h4; simp [goStr, unescSimple]
  · subst h5; simp [goStr, unescSimple]
  · subst h6; simp [goStr, unescSimple]
  · subst h7; simp [goStr, unescSimple]
  · have hhi : c.toNat / 16 < 16 := by omega
    have hlo : c.toNat % 16 < 16 := by omega
    have h0 : hexVal '0' = some 0 := by decide
    have hch : Char.ofNat (c.toNat / 16 * 16 + c.toNat % 16) = c := by
      rw [show c.toNat / 16 * 16 + c.toNat % 16 = c.toNat by omega, Char.ofNat_toNat]
    simp [goStr, h0, hexVal_hexDig _ hhi, hexVal_hexDig _ hlo, hch]
  · simp [goStr, h1, h2]

theorem goStr_escStr : ∀ (s rest : Str) (fuel : Nat), s.length < fuel →
    goStr fuel (escStr s ++ '"' :: rest) = some (s, rest) := by
  intro s
  induction s with
  | nil =>
    intro rest fuel hf
    obtain ⟨f, rfl⟩ : ∃ f, fuel = f + 1 := ⟨fuel - 1, by omega⟩
    simp [escStr, goStr]
  | cons c cs ih =>
    intro rest fuel hf
    obtain ⟨f, rfl⟩ : ∃ f, fuel = f + 1 := ⟨fuel - 1, by omega⟩
    have hshape : escStr (c :: cs) ++ '"' :: rest = escChar c ++ (escStr cs ++ '"' :: rest) := by
      have : escStr (c :: cs) = escChar c ++ escStr cs := rfl
      rw [this, List.append_assoc]
    have hf' : cs.length < f := by
      have := List.length_cons c cs
      omega
    rw [hshape, goStr_escChar, ih rest f hf']
    rfl

theorem parseJString_quote (s rest : Str) (fuel : Nat) (hf : s.length < fuel) :
    parseJString fuel (jsQuote s ++ rest) = some (s, rest) := by
  have hshape : jsQuote s ++ rest = '"' :: (escStr s ++ '"' :: rest) := by
    simp [jsQuote, List.append_assoc]
  rw [hshape]
  unfold parseJString
  simp [goStr_escStr s rest fuel hf]

theorem skipJWs_cons_nws {c : Char} (t : Str) (h : jWs c = false) :
    skipJWs (c :: t) = c :: t := by
  simp [skipJWs, List.dropWhile, h]

theorem skipJWs_cons_ws {c : Char} (t : Str) (h : jWs c = true) :
    skipJWs (c :: t) = skipJWs t := by
  simp [skipJWs, List.dropWhile, h]

theorem parsePairs_congr (fuel : Nat) (a b : Str) (h : skipJWs a = skipJWs b) :
    parsePairs fuel a = parsePairs fuel b := by
  cases fuel with
  | zero => rfl
  | succ f =>
    simp only [parsePairs]
    rw [h]

theorem parseJString_quote_cons (s rest : Str) (fuel : Nat) (hf : s.length < fuel) :
    parseJString fuel ('"' :: (escStr s ++ '"' :: rest)) = some (s, rest) := by
  unfold parseJString
  simp [goStr_escStr s rest fuel hf]

theorem dumpObjPairs_length : ∀ ps : List (Str × Str), ps.length ≤ (dumpObjPairs ps).length := by
  intro ps
  induction ps with
  | nil => simp [dumpObjPairs]
  | cons p ps ih =>
    cases ps with
    | nil =>
      simp only [dumpObjPairs, dumpPair, jsQuote, List.length_cons, List.length_append,
        List.length_nil]
      omega
    | cons q qs =>
      simp only [dumpObjPairs, List.length_append, List.length_cons] at ih ⊢
      omega

theorem parsePairs_pair_step (k v T : Str) (f : Nat) :
    parsePairs (f + 1) (dumpPair (k, v) ++ T) =
      (match skipJWs T with
      | [] => none
      | c3 :: r4 =>
        if c3 = ',' then (parsePairs f r4).map (fun p => ((k, v) :: p.1, p.2))
        else if c3 = rbrace then some ([(k, v)], r4)
        else none) := by
  have hshape : dumpPair (k, v) ++ T
      = '"' :: (escStr k ++ '"' :: (':' :: ' ' :: ('"' :: (escStr v ++ '"' :: T)))) := by
    simp [dumpPair, jsQuote]
  rw [hshape]
  simp only [parsePairs]
  rw [skipJWs_cons_nws _ (by decide)]
  have hq : ¬(('"' : Char) = rbrace) := by decide
  have hk : parseJString
      (('"' :: (escStr k ++ '"' :: (':' :: ' ' :: ('"' :: (escStr v ++ '"' :: T))))).length + 1)
      ('"' :: (escStr k ++ '"' :: (':' :: ' ' :: ('"' :: (escStr v ++ '"' :: T)))))
      = some (k, ':' :: ' ' :: ('"' :: (escStr v ++ '"' :: T))) := by
    apply parseJString_quote_cons
    have := escStr_length k
    simp only [List.length_cons, List.length_append]
    omega
  simp only [if_neg hq, hk]
  rw [skipJWs_cons_nws _ (by decide)]
  simp only [eq_self_iff_true, if_true]
  rw [skipJWs_cons_ws _ (by decide), skipJWs_cons_nws _ (by decide)]
  have hv : parseJString (('"' :: (escStr v ++ '"' :: T)).length + 1)
      ('"' :: (escStr v ++ '"' :: T)) = some (v, T) := by
    apply parseJString_quote_cons
    have := escStr_length v
    simp only [List.length_cons, List.length_append]
    omega
  simp only [hv]

theorem parsePairs_dump : ∀ (ps : List (Str × Str)) (f : Nat) (rest : Str),
    ps ≠ [] → ps.length < f →
    parsePairs f (dumpObjPairs ps ++ '\n' :: rbrace :: rest) = some (ps, rest) := by
  intro ps
  induction ps with
  | nil => intro f rest h _; exact absurd rfl h
  | cons p ps ih =>
    intro f rest _ hlen
    obtain ⟨f', rfl⟩ : ∃ f', f = f' + 1 := ⟨f - 1, by omega⟩
    obtain ⟨k, v⟩ := p
    cases ps with
    | nil =>
      have hd : dumpObjPairs [(k, v)] ++ '\n' :: rbrace :: rest
          = dumpPair (k, v) ++ ('\n' :: rbrace :: rest) := by
        simp [dumpObjPairs]
      rw [hd, parsePairs_pair_step]
      rw [skipJWs_cons_ws _ (by decide), skipJWs_cons_nws _ (by decide)]
      have hq : ¬(rbrace = ',') := by decide
      simp only [if_neg hq, eq_self_iff_true, if_true]
    | cons q qs =>
      have hd : dumpObjPairs ((k, v) :: q :: qs) ++ '\n' :: rbrace :: rest
          = dumpPair (k, v)
            ++ (',' :: '\n' :: ' ' :: ' ' :: (dumpObjPairs (q :: qs) ++ '\n' :: rbrace :: rest)) := by
        simp [dumpObjPairs]
      rw [hd, parsePairs_pair_step]
      rw [skipJWs_cons_nws _ (by decide)]
      simp only [eq_self_iff_true, if_true]
      have hcongr : parsePairs f'
          ('\n' :: ' ' :: ' ' :: (dumpObjPairs (q :: qs) ++ '\n' :: rbrace :: rest))
          = parsePairs f' (dumpObjPairs (q :: qs) ++ '\n' :: rbrace :: rest) := by
        apply parsePairs_congr
        rw [skipJWs_cons_ws _ (by decide), skipJWs_cons_ws _ (by decide),
          skipJWs_cons_ws _ (by decide)]
      have hlen' : (q :: qs).length < f' := by
        simp only [List.length_cons] at hlen ⊢
        omega
      rw [hcongr, ih f' rest (by simp) hlen']
      rfl

theorem parseObj_dumpObj : ∀ ps : List (Str × Str), parseObj (dumpObj ps) = some ps := by
  intro ps
  cases ps with
  | nil => decide
  | cons p ps' =>
    have hd : dumpObj (p :: ps')
        = lbrace :: '\n' :: ' ' :: ' ' :: (dumpObjPairs (p :: ps') ++ '\n' :: rbrace :: []) := by
      simp [dumpObj]
    rw [hd]
    unfold parseObj
    rw [skipJWs_cons_nws _ (by decide)]
    simp only [eq_self_iff_true, if_true]
    have hcongr : parsePairs
        (('\n' :: ' ' :: ' ' :: (dumpObjPairs (p :: ps') ++ '\n' :: rbrace :: [])).length + 1)
        ('\n' :: ' ' :: ' ' :: (dumpObjPairs (p :: ps') ++ '\n' :: rbrace :: []))
        = parsePairs
        (('\n' :: ' ' :: ' ' :: (dumpObjPairs (p :: ps') ++ '\n' :: rbrace :: [])).length + 1)
        (dumpObjPairs (p :: ps') ++ '\n' :: rbrace :: []) := by
      apply parsePairs_congr
      rw [skipJWs_cons_ws _ (by decide), skipJWs_cons_ws _ (by decide),
        skipJWs_cons_ws _ (by decide)]
    have hfuel : (p :: ps').length
        < ('\n' :: ' ' :: ' ' :: (dumpObjPairs (p :: ps') ++ '\n' :: rbrace :: [])).length + 1 := by
      have := dumpObjPairs_length (p :: ps')
      simp only [List.length_cons, List.length_append] at this ⊢
      omega
    rw [hcongr, parsePairs_dump (p :: ps') _ [] (by simp) hfuel]
    simp [skipJWs]

/-- Claim C8: the persisted JSON file of an accepted article round-trips:
parsing the written text reproduces exactly the title, description,
category, source, source URL, image URL, image path and posted-at values
passed to the record constructor, and the generated identifier and the
two timestamps are present under their keys and well-formed. -/
theorem news_file_round_trip
    (genId createdAt updatedAt title description category source sourceUrl
      imageUrl imagePath postedAt : Str)
    (hid : isUuidStr genId = true) (hca : isIsoLike createdAt = true)
    (hua : isIsoLike updatedAt = true) :
    parseObj (dumpNews (News.make genId createdAt updatedAt title description category
        source sourceUrl imageUrl imagePath postedAt))
      = some [(kId, genId), (kTitle, title), (kDescription, description),
          (kCategory, category), (kSource, source), (kSourceUrl, sourceUrl),
          (kImageUrl, imageUrl), (kImagePath, imagePath), (kPostedAt, postedAt),
          (kCreatedAt, createdAt), (kUpdatedAt, updatedAt)] ∧
    isUuidStr genId = true ∧ isIsoLike createdAt = true ∧ isIsoLike updatedAt = true :=
  ⟨parseObj_dumpObj _, hid, hca, hua⟩

/-- Witness of C8 at concrete inputs. -/
theorem news_file_round_trip_witness :
    parseObj (dumpNews (News.make wGid wCreated wUpdated "A \"quoted\" title".toList
        "line one\nline two".toList "Agriculture".toList "New Vision".toList
        "https://x/y".toList "https://x/img.png".toList "images/i.jpg".toList
        "2026-10-11".toList))
      = some [(kId, wGid), (kTitle, "A \"quoted\" title".toList),
          (kDescription, "line one\nline two".toList), (kCategory, "Agriculture".toList),
          (kSource, "New Vision".toList), (kSourceUrl, "https://x/y".toList),
          (kImageUrl, "https://x/img.png".toList), (kImagePath, "images/i.jpg".toList),
          (kPostedAt, "2026-10-11".toList), (kCreatedAt, wCreated), (kUpdatedAt, wUpdated)] ∧
    isUuidStr wGid = true ∧ isIsoLike wCreated = true ∧ isIsoLike wUpdated = true :=
  news_file_round_trip wGid wCreated wUpdated "A \"quoted\" title".toList
    "line one\nline two".toList "Agriculture".toList "New Vision".toList
    "https://x/y".toList "https://x/img.png".toList "images/i.jpg".toList
    "2026-10-11".toList (by decide) (by decide) (by decide)

theorem fileOk_save (news : News) : fileOk (news.id ++ dotJson, dumpNews news) :=
  ⟨news.id, _, parseObj_dumpObj (newsToDict news), rfl⟩

theorem finish_article_fileOk (env : Env) (n u : Str) (d : ArticleData)
    (iu ip : Str) (st : SState) (h : ∀ fc ∈ st.savedFiles, fileOk fc) :
    ∀ fc ∈ (finish_article env n u d iu ip st).savedFiles, fileOk fc := by
  intro fc hfc
  unfold finish_article save_news_to_json at hfc
  simp only [List.mem_append] at hfc
  rcases hfc with h1 | h1
  · exact h fc h1
  · rw [List.mem_singleton] at h1
    subst h1
    exact fileOk_save _

theorem process_article_fileOk (env : Env) (n u : Str) (st : SState)
    (h : ∀ fc ∈ st.savedFiles, fileOk fc) :
    ∀ fc ∈ (process_article env n u st).savedFiles, fileOk fc := by
  unfold process_article
  repeat' split
  any_goals exact h
  dsimp only
  split
  · exact finish_article_fileOk _ _ _ _ _ _ _ h
  · apply finish_article_fileOk
    intro fc hfc
    rw [download_image_fst_savedFiles] at hfc
    exact h fc hfc

theorem process_links_fileOk (env : Env) (n : Str) :
    ∀ (cs : List Candidate) (st : SState), (∀ fc ∈ st.savedFiles, fileOk fc) →
      ∀ fc ∈ (process_links env n cs st).savedFiles, fileOk fc := by
  intro cs
  induction cs with
  | nil => intro st h; simpa [process_links] using h
  | cons c cs ih =>
    intro st h
    rcases hc : c.url with _ | v
    · rw [process_links_cons_none env n c cs st hc]; exact ih st h
    · by_cases hv : v = []
      · subst hv
        rw [process_links_cons_empty env n c cs st hc]; exact ih st h
      · by_cases hmem : v ∈ st.processedUrls
        · rw [process_links_cons_dup env n c cs st hc hv hmem]; exact ih st h
        · by_cases hpv : articlePatternSearch v = true
          · rw [process_links_cons_extract env n c cs st hc hv hmem hpv]
            exact ih _ (process_article_fileOk env n v _ h)
          · rw [process_links_cons_nopat env n c cs st hc hv hmem (by simpa using hpv)]
            exact ih _ h

theorem process_site_fileOk (env : Env) (n url : Str) (st : SState)
    (h : ∀ fc ∈ st.savedFiles, fileOk fc) :
    ∀ fc ∈ (process_site env n url st).savedFiles, fileOk fc := by
  unfold process_site
  repeat' split
  any_goals exact h
  apply process_links_fileOk
  exact h

theorem scrape_fileOk (env : Env) (st : SState)
    (h : ∀ fc ∈ st.savedFiles, fileOk fc) :
    ∀ fc ∈ (scrape_all_sites env st).savedFiles, fileOk fc := by
  unfold scrape_all_sites
  apply foldl_pres (fun st => ∀ fc ∈ st.savedFiles, fileOk fc) _ ?_ _ _ h
  intro st' site h'
  unfold process_site_all
  apply foldl_pres (fun st => ∀ fc ∈ st.savedFiles, fileOk fc) _ ?_
  · exact process_site_fileOk env site.name site.url _ h'
  · intro st'' a h''
    exact process_site_fileOk env site.name a _ h''

/-- Claim C9: every file a run persists is named by the identifier stored
inside it: its content parses to an object whose first field is the id,
and the filename is exactly that id followed by the json extension. -/
theorem saved_filename_matches_inner_id (env : Env) (fc : Str × Str)
    (h : fc ∈ (scrape_all_sites env initState).savedFiles) : fileOk fc :=
  scrape_fileOk env initState
    (fun fc hfc => absurd hfc (List.not_mem_nil fc)) fc h

set_option maxRecDepth 8000 in
/-- Witness of C9 on a concrete full run persisting one record. -/
theorem saved_filename_matches_inner_id_witness :
    ((scrape_all_sites c9Env initState).savedFiles.headD dummyFile)
        ∈ (scrape_all_sites c9Env initState).savedFiles ∧
    fileOk ((scrape_all_sites c9Env initState).savedFiles.headD dummyFile) :=
  ⟨by decide, saved_filename_matches_inner_id c9Env _ (by decide)⟩
